import Mathlib

/-!
# Verification of `find_inconsistencies.py` (ITS-Survey)

Shallow embedding of the Python 2 script `src/find_inconsistencies.py`
together with proofs of the specified properties.

The script reads two CSV files (a categorical and a numerical ranking,
one row per subject), counts per-subject ranking inconsistencies, writes
the counts to an output CSV and prints mean/mode statistics.
-/

namespace ITSSurvey

/-- `DEFAULT_FILENAME = 'inconsistencies.csv'` (line 8). -/
def DEFAULT_FILENAME : String := "inconsistencies.csv"

/-- `pairwise` (lines 10-16): `s -> (s0,s1), (s1,s2), (s2,s3), ...`. -/
def pairwise (l : List α) : List (α × α) := l.zip l.tail

/-- `signum` (lines 18-25). -/
def signum (x : Int) : Int := if x > 0 then 1 else if x < 0 then -1 else 0

/-- Python 2 built-in `cmp` on integers: -1, 0, or 1. -/
def cmp (a b : Int) : Int := if a < b then -1 else if a > b then 1 else 0

/-- The sort comparator at lines 50-51: `lambda x, y: cmp(y[1], x[1])`
applied to `(index, value)` pairs. -/
def numCmp (x y : Nat × Int) : Int := cmp y.2 x.2

/-- The "less-or-tied" Boolean relation induced by the comparator `numCmp`:
`x` may be placed before `y` iff `numCmp x y ≤ 0`.  A stable comparator
sort (Python 2's `sorted`) is exactly a stable sort by this relation. -/
def numLE (x y : Nat × Int) : Bool := decide (numCmp x y ≤ 0)

/-- Inner function `score` (lines 55-60), with its captured variable
`cat_rankings` made explicit.  List indexing `cat_rankings[i]` is embedded
as `getD i 0`; all call sites keep the index in range. -/
def score (cat_rankings : List Int) (ranking_pair : (Nat × Int) × (Nat × Int)) : Int :=
  let r1 := ranking_pair.1
  let r2 := ranking_pair.2
  max 0 (signum (cmp (cat_rankings.getD r1.1 0) (cat_rankings.getD r2.1 0)))

/-- `score_subject` (lines 48-62), acting on rows already converted to
integers.  Python's stable `sorted(enumerate(...), cmp)` is embedded as
the stable `List.mergeSort` by the comparator's "less-or-tied" relation. -/
def score_subject (cat_row num_row : List Int) : Int :=
  let cat_rankings := cat_row
  let num_rankings := (num_row.enum).mergeSort numLE
  (pairwise num_rankings).foldl (fun x y => x + score cat_rankings y) 0

/-- The zip-then-map at line 65, acting on rows already converted to
integers: `starmap(score_subject, zip(cat_reader, num_reader))`.
Python's `zip` truncates to the shorter input. -/
def find_inconsistencies (cat_rows num_rows : List (List Int)) : List Int :=
  (cat_rows.zip num_rows).map fun p => score_subject p.1 p.2

/-! ## Integer parsing (Python 2 `int(str)`)

`int` accepts optional surrounding whitespace, an optional sign and a
nonempty digit string; anything else raises `ValueError` (embedded as
`none`). -/

/-- Whitespace characters stripped by `int()`. -/
def isPySpace (c : Char) : Bool :=
  c = ' ' || c = '\t' || c = '\n' || c = '\r' || c = '\x0b' || c = '\x0c'

/-- Strip leading and trailing whitespace. -/
def pyStrip (cs : List Char) : List Char :=
  ((cs.dropWhile isPySpace).reverse.dropWhile isPySpace).reverse

/-- Value of a string of decimal digits. -/
def digitsVal (cs : List Char) : Nat :=
  cs.foldl (fun acc c => 10 * acc + (c.toNat - 48)) 0

/-- Parse a nonempty all-digit string. -/
def parseDigits (cs : List Char) : Option Nat :=
  if cs ≠ [] ∧ cs.all Char.isDigit then some (digitsVal cs) else none

/-- Python 2 `int(s)` for a string `s`; `none` embeds `ValueError`. -/
def pyInt (s : String) : Option Int :=
  match pyStrip s.toList with
  | '-' :: cs => (parseDigits cs).map fun n => -(n : Int)
  | '+' :: cs => (parseDigits cs).map fun n => (n : Int)
  | cs => (parseDigits cs).map fun n => (n : Int)

/-- `map(int, row)` (lines 49-50): `none` embeds a `ValueError` raised by
`int` on some field. -/
def parseRow (row : List String) : Option (List Int) := row.mapM pyInt

/-! ## CSV reading and the error path (lines 43-68, 80-81)

A CSV input is modelled as the sequence of results its `csv.reader`
produces: each row either yields a list of field strings or raises
`csv.Error` (`RowResult.err`).  `zip(cat_reader, num_reader)` (line 65,
eager in Python 2) consumes the readers alternately — `next(cat)` then
`next(num)` per pair — and stops at the first exhausted reader; a
`csv.Error` raised during it is caught at lines 66-68 and turned into
`sys.exit('file %s, line %d: ...' % (cat_csv_filename, cat_reader.line_num, e))`,
which always names the *categorical* file.  The `starmap` (line 65) is
lazy: the `int` conversions inside `score_subject` run only when
`report_inconsistencies` forces the result (line 80), outside the
`try`/`except csv.Error`, so a `ValueError` from `int` is never caught
and aborts the interpreter with a traceback. -/

/-- One `next()` on a `csv.reader`: a parsed row, or `csv.Error`. -/
inductive RowResult
  | ok (fields : List String)
  | err
deriving DecidableEq

/-- A CSV input file, as seen through `csv.reader`. -/
abbrev CsvData := List RowResult

/-- `zip(cat_reader, num_reader)` (line 65).  The `Nat` argument counts
rows already consumed from the categorical reader; on `csv.Error` the
result carries `cat_reader.line_num` at the moment the exception is
raised (one CSV row per file line). -/
def zipReaders : CsvData → CsvData → Nat → Except Nat (List (List String × List String))
  | [], _, _ => .ok []
  | .err :: _, _, catLines => .error (catLines + 1)
  | .ok _ :: _, [], _ => .ok []
  | .ok _ :: _, .err :: _, catLines => .error (catLines + 1)
  | .ok c :: cat, .ok n :: num, catLines =>
    match zipReaders cat num (catLines + 1) with
    | .ok rest => .ok ((c, n) :: rest)
    | .error l => .error l

/-- One deferred `score_subject(cat_row, num_row)` call on string rows:
`none` embeds the `ValueError` raised by `map(int, ...)`. -/
def scoreOnePair (p : List String × List String) : Option Int :=
  (parseRow p.1).bind fun c => (parseRow p.2).map fun n => score_subject c n

/-- Forcing the lazy `starmap` (done by `tuple(...)` at line 80):
subjects are scored in order and the first `ValueError` aborts. -/
def scorePairs : List (List String × List String) → Option (List Int)
  | [] => some []
  | p :: t => (scoreOnePair p).bind fun x => (scorePairs t).map fun xs => x :: xs

/-- Decode one reader row to integers, if it neither raises `csv.Error`
nor contains a non-integer field. -/
def decodeRow? : RowResult → Option (List Int)
  | .ok fields => parseRow fields
  | .err => none

/-- Decode a whole well-formed CSV input to integer rows. -/
def decodeFile : CsvData → Option (List (List Int))
  | [] => some []
  | r :: t => (decodeRow? r).bind fun x => (decodeFile t).map fun xs => x :: xs

/-- Observable outcome of `find_inconsistencies` as consumed by
`report_inconsistencies` (lines 64-68 and 80-81). -/
inductive ProgOutcome
  /-- Normal completion: the tuple of per-subject counts. -/
  | counts (l : List Int)
  /-- `sys.exit('file %s, line %d: ...')`: clean termination printing the
  named file and line (no traceback). -/
  | exitMsg (file : String) (line : Nat)
  /-- An uncaught `ValueError` from `int(...)`: interpreter aborts with a
  traceback. -/
  | uncaughtValueError
deriving DecidableEq

/-- `find_inconsistencies(cat_csv_filename, num_csv_filename)` together
with the forcing of its lazy result at line 80. -/
def runFind (cat_csv_filename : String) (cat num : CsvData) : ProgOutcome :=
  match zipReaders cat num 0 with
  | .error line => .exitMsg cat_csv_filename line
  | .ok pairs =>
    match scorePairs pairs with
    | some l => .counts l
    | none => .uncaughtValueError

/-! ## Reported statistics (lines 80-86)

`avg = sum(...) / float(len(...))` is exact rational arithmetic for the
magnitudes at hand; `'%d' %` formatting of a float truncates toward
zero.  `mode = Counter(...).most_common(1)[0][0]` picks a value of
maximal multiplicity (first-encountered on ties). -/

/-- `'%d' % f` for a float `f`: truncation toward zero. -/
def truncFormatD (q : ℚ) : Int := if 0 ≤ q then q.floor else -((-q).floor)

/-- The integer printed by `print('Average # of inconsistencies: %d' % avg)`
(lines 82, 85). -/
def averageDisplayed (counts : List Int) : Int :=
  truncFormatD ((counts.sum : ℚ) / (counts.length : ℚ))

/-- Distinct values of a list in order of first occurrence. -/
def firstOccurrences (l : List Int) : List Int :=
  l.foldl (fun acc x => if x ∈ acc then acc else acc ++ [x]) []

/-- `Counter(counts).most_common(1)[0][0]` (lines 83, 86): a value of
maximal multiplicity; `none` embeds the `IndexError` on an empty input. -/
def modeOf (l : List Int) : Option Int :=
  match firstOccurrences l with
  | [] => none
  | x :: xs => some (xs.foldl (fun best y => if l.count y > l.count best then y else best) x)

/-! ## Command-line surface (lines 92-102) -/

/-- What `__main__` does, as a function of `sys.argv`. -/
inductive MainOutcome
  /-- Prints the usage string to standard output and falls off the end of
  the script: exit status 0, no file opened, no scoring performed. -/
  | usage
  /-- Calls `report_inconsistencies(cat, num, out)`. -/
  | report (cat_csv num_csv out_csv : String)
deriving DecidableEq

/-- The `if len(sys.argv) > 2` dispatch (lines 92-102); `argv` includes
the program name at index 0. -/
def pymain (argv : List String) : MainOutcome :=
  if argv.length > 2 then
    let ranking1 := argv.getD 1 ""
    let ranking2 := argv.getD 2 ""
    if argv.length = 4 then .report ranking1 ranking2 (argv.getD 3 "")
    else .report ranking1 ranking2 DEFAULT_FILENAME
  else .usage

/-! ## Spec-side definitions (for the refinement claim C1)

These follow the wording of the specification, §4.1: sort the item
indices `0..N-1` stably by descending numerical value, walk consecutive
pairs, and add 1 exactly when the first item's categorical value exceeds
the second's. -/

/-- Modelled from the spec: "the list of item indices `0..N-1` stably
sorted by descending numerical value (equal numerical values keep their
original index order)". -/
def specSortedIndices (num_row : List Int) : List Nat :=
  (List.range num_row.length).mergeSort
    (fun i j => decide (num_row.getD j 0 ≤ num_row.getD i 0))

/-- Modelled from the spec: the contribution of one consecutive pair,
"1 when categorical[item_a] > categorical[item_b] and 0 otherwise". -/
def specPairContribution (cat_row : List Int) (p : Nat × Nat) : Int :=
  if cat_row.getD p.1 0 > cat_row.getD p.2 0 then 1 else 0

/-- Modelled from the spec: the sum of the pair contributions over the
N-1 consecutive pairs of the sorted index list. -/
def specInconsistencyCount (cat_row num_row : List Int) : Int :=
  (((specSortedIndices num_row).zip (specSortedIndices num_row).tail).map
    (specPairContribution cat_row)).sum

/-! ## Helper lemmas -/

/-- The comparator-induced relation compares the numerical values in
reverse order. -/
theorem numLE_eq (x y : Nat × Int) : numLE x y = decide (y.2 ≤ x.2) := by
  simp only [numLE, numCmp, cmp]
  split_ifs <;> simp <;> omega

/-- Folding `(x, y) ↦ x + g y` is summing the images of `g`. -/
theorem foldl_add_eq_sum (g : α → Int) (l : List α) (init : Int) :
    l.foldl (fun x y => x + g y) init = init + (l.map g).sum := by
  induction l generalizing init with
  | nil => simp
  | cons a t ih => simp [ih, add_assoc]

/-- `pairwise` commutes with `map`. -/
theorem pairwise_map (f : α → β) (l : List α) :
    pairwise (l.map f) = (pairwise l).map (Prod.map f f) := by
  rw [pairwise, pairwise, ← List.map_tail, List.zip_map]

/-- The length of the sliding window. -/
theorem length_pairwise (l : List α) : (pairwise l).length = l.length - 1 := by
  simp [pairwise]

/-- Any adjacent pair produced by `pairwise` is related by any `Pairwise`
relation of the underlying list. -/
theorem rel_of_mem_pairwise {R : α → α → Prop} {l : List α} (h : l.Pairwise R)
    {p : α × α} (hp : p ∈ pairwise l) : R p.1 p.2 := by
  rw [pairwise] at hp
  obtain ⟨i, hi, hget⟩ := List.mem_iff_getElem.mp hp
  have hlen : i < l.length - 1 := by
    simpa [List.length_tail] using hi
  have h1 : i < l.length := by omega
  have h2 : i + 1 < l.length := by omega
  have : (l.zip l.tail)[i] = (l[i], l[i + 1]) := by
    simp [List.getElem_zip, List.getElem_tail]
  rw [this] at hget
  have := List.pairwise_iff_getElem.mp h i (i + 1) h1 h2 (by omega)
  simpa [← hget] using this

/-- Both components of an adjacent pair are members of the list. -/
theorem mem_of_mem_pairwise {l : List α} {p : α × α} (hp : p ∈ pairwise l) :
    p.1 ∈ l ∧ p.2 ∈ l := by
  obtain ⟨a, b⟩ := p
  rw [pairwise] at hp
  have := List.of_mem_zip hp
  exact ⟨this.1, List.mem_of_mem_tail this.2⟩

/-- `enumerate` of a row, written with explicit index lookups. -/
theorem enum_eq_map_range (l : List Int) :
    l.enum = (List.range l.length).map fun i => (i, l.getD i 0) := by
  apply List.ext_getElem
  · simp
  · intro i h1 h2
    have hi : i < l.length := by simpa using h1
    simp [List.enum_eq_enumFrom, List.getElem_enumFrom, List.getElem?_eq_getElem hi]

/-- The source's stable sort of the enumerated numerical row is the
spec's stably sorted index list, with each index paired with its value. -/
theorem mergeSort_enum_eq (num_row : List Int) :
    (num_row.enum).mergeSort numLE
      = (specSortedIndices num_row).map fun i => (i, num_row.getD i 0) := by
  rw [enum_eq_map_range, specSortedIndices]
  rw [← List.map_mergeSort (r := fun i j => decide (num_row.getD j 0 ≤ num_row.getD i 0))]
  intro a _ b _
  rw [numLE_eq]

/-- The contribution of one adjacent pair in the source equals the
spec's pair contribution. -/
theorem score_eq_specPairContribution (cat : List Int) (a b : Nat) (va vb : Int) :
    score cat ((a, va), (b, vb)) = specPairContribution cat (a, b) := by
  simp only [score, specPairContribution, signum, cmp]
  split_ifs <;> first | rfl | omega

/-- `score_subject` as a sum over the sliding window of the sorted list. -/
theorem score_subject_eq_sum (cat num : List Int) :
    score_subject cat num
      = ((pairwise ((num.enum).mergeSort numLE)).map (score cat)).sum := by
  rw [score_subject, foldl_add_eq_sum, zero_add]

/-- `score_subject` as a sum of spec-side pair contributions over the
spec-side sorted index list. -/
theorem score_subject_eq_spec_sum (cat num : List Int) :
    score_subject cat num
      = ((pairwise (specSortedIndices num)).map (specPairContribution cat)).sum := by
  rw [score_subject_eq_sum, mergeSort_enum_eq, pairwise_map, List.map_map]
  congr 1
  apply List.map_congr_left
  intro p _
  obtain ⟨a, b⟩ := p
  exact score_eq_specPairContribution cat a b _ _

/-- Each pair contribution is 0 or 1. -/
theorem score_nonneg (cat : List Int) (p : (Nat × Int) × (Nat × Int)) :
    0 ≤ score cat p :=
  le_max_left 0 _

/-- Each pair contribution is at most 1. -/
theorem score_le_one (cat : List Int) (p : (Nat × Int) × (Nat × Int)) :
    score cat p ≤ 1 := by
  simp only [score, signum, cmp]
  split_ifs <;> decide

/-! ## Facts about the sorted index list -/

/-- The spec-side index list is a permutation of `0..N-1`. -/
theorem specSortedIndices_perm (num : List Int) :
    (specSortedIndices num).Perm (List.range num.length) :=
  List.mergeSort_perm _ _

/-- Numerical values are nonincreasing along the sorted index list. -/
theorem specSortedIndices_sorted (num : List Int) :
    (specSortedIndices num).Pairwise fun i j => num.getD j 0 ≤ num.getD i 0 := by
  have h := @List.sorted_mergeSort ℕ
      (fun i j => decide (num.getD j 0 ≤ num.getD i 0))
      (fun a b c h1 h2 => by simp_all; omega)
      (fun a b => by simp [Bool.or_eq_true]; omega)
      (List.range num.length)
  exact h.imp fun hab => by simpa using hab

/-- The sorted index list has no duplicate indices. -/
theorem specSortedIndices_nodup (num : List Int) :
    (specSortedIndices num).Nodup :=
  ((specSortedIndices_perm num).nodup_iff).mpr (List.nodup_range _)

/-- The sorted index list is characterized pointwise: later indices have
strictly smaller values, or equal values and larger original index.
Together with `specSortedIndices_perm` this pins the list down uniquely
as "stably sorted by descending numerical value, equal values in
original index order". -/
theorem specSortedIndices_stable (num : List Int) :
    (specSortedIndices num).Pairwise fun i j =>
      num.getD j 0 < num.getD i 0 ∨ (num.getD i 0 = num.getD j 0 ∧ i < j) := by
  have htrans : ∀ (a b c : Nat),
      (fun i j : Nat => decide (num.getD j 0 ≤ num.getD i 0)) a b →
      (fun i j : Nat => decide (num.getD j 0 ≤ num.getD i 0)) b c →
      (fun i j : Nat => decide (num.getD j 0 ≤ num.getD i 0)) a c := by
    intro a b c h1 h2
    simp_all
    omega
  have htotal : ∀ (a b : Nat),
      ((fun i j : Nat => decide (num.getD j 0 ≤ num.getD i 0)) a b
        || (fun i j : Nat => decide (num.getD j 0 ≤ num.getD i 0)) b a) := by
    intro a b
    simp [Bool.or_eq_true]
    omega
  have hsorted := List.pairwise_iff_getElem.mp (specSortedIndices_sorted num)
  have hnd := specSortedIndices_nodup num
  rw [List.pairwise_iff_getElem]
  intro i j hi hj hij
  have hle := hsorted i j hi hj hij
  have hne : (specSortedIndices num)[i] ≠ (specSortedIndices num)[j] := by
    intro h
    exact absurd ((hnd.getElem_inj_iff).mp h) (by omega)
  rcases eq_or_lt_of_le hle with heq | hlt
  · right
    refine ⟨heq.symm, ?_⟩
    by_contra hge
    have hgt : (specSortedIndices num)[j] < (specSortedIndices num)[i] := by
      rcases Nat.lt_or_ge ((specSortedIndices num)[j]) ((specSortedIndices num)[i]) with h | h
      · exact h
      · exact absurd (by omega : (specSortedIndices num)[i] = (specSortedIndices num)[j]) hne
    have hiN : (specSortedIndices num)[i] < num.length :=
      List.mem_range.mp ((specSortedIndices_perm num).mem_iff.mp (List.getElem_mem _))
    have hsub : List.Sublist [(specSortedIndices num)[j], (specSortedIndices num)[i]]
        (List.range num.length) := by
      have h1 : List.Sublist [(specSortedIndices num)[j]]
          (List.range ((specSortedIndices num)[i])) :=
        List.singleton_sublist.mpr (List.mem_range.mpr hgt)
      have h2 := h1.append (List.Sublist.refl [(specSortedIndices num)[i]])
      rw [← List.range_succ] at h2
      exact h2.trans (List.range_sublist.mpr (by omega))
    have hab : (fun i j : Nat => decide (num.getD j 0 ≤ num.getD i 0))
        ((specSortedIndices num)[j]) ((specSortedIndices num)[i]) := by
      simp only [decide_eq_true_eq]
      omega
    have hstab := List.pair_sublist_mergeSort htrans htotal hab hsub
    rw [List.sublist_iff_exists_fin_orderEmbedding_get_eq] at hstab
    obtain ⟨f, hf⟩ := hstab
    have h0 := hf ⟨0, by simp⟩
    have h1 := hf ⟨1, by simp⟩
    simp only [List.get_eq_getElem] at h0 h1
    have hmono : (f ⟨0, by simp⟩ : Fin _) < f ⟨1, by simp⟩ :=
      f.strictMono (by simp [Fin.lt_def])
    have hj0 : (f ⟨0, by simp⟩ : Fin _).1 = j := by
      have := (hnd.getElem_inj_iff).mp h0.symm
      omega
    have hi1 : (f ⟨1, by simp⟩ : Fin _).1 = i := by
      have := (hnd.getElem_inj_iff).mp h1.symm
      omega
    rw [Fin.lt_def, hj0, hi1] at hmono
    omega
  · left
    exact hlt

/-- An adjacent pair of the sorted index list consists of two distinct
in-range indices whose numerical values are ordered. -/
theorem mem_pairwise_specSortedIndices {num : List Int} {p : Nat × Nat}
    (hp : p ∈ pairwise (specSortedIndices num)) :
    p.1 < num.length ∧ p.2 < num.length ∧ p.1 ≠ p.2 ∧
      num.getD p.2 0 ≤ num.getD p.1 0 := by
  have hmem := mem_of_mem_pairwise hp
  have hperm := specSortedIndices_perm num
  have h1 : p.1 < num.length := List.mem_range.mp (hperm.mem_iff.mp hmem.1)
  have h2 : p.2 < num.length := List.mem_range.mp (hperm.mem_iff.mp hmem.2)
  have hnd : (specSortedIndices num).Pairwise (· ≠ ·) := specSortedIndices_nodup num
  have hPW := (specSortedIndices_sorted num).and hnd
  have hrel := rel_of_mem_pairwise hPW hp
  exact ⟨h1, h2, hrel.2, hrel.1⟩

/-- Sum of a list of ones. -/
theorem sum_eq_length_of_all_one (l : List Int) (h : ∀ x ∈ l, x = 1) :
    l.sum = (l.length : ℤ) := by
  induction l with
  | nil => simp
  | cons a t ih =>
    have ha : a = 1 := h a (by simp)
    have ht := ih fun x hx => h x (by simp [hx])
    simp [ha, ht]
    omega

/-! ## C1 -/

/-- C1: for equal-length integer rows, `score_subject` returns the sum,
over the consecutive pairs of the item indices stably sorted by
descending numerical value (equal values keeping original index order,
as the last two conjuncts pin down), of 1 when the first item's
categorical value exceeds the second's and 0 otherwise. -/
theorem score_subject_eq_specInconsistencyCount (cat_row num_row : List Int)
    (_hlen : cat_row.length = num_row.length) :
    score_subject cat_row num_row = specInconsistencyCount cat_row num_row ∧
    (specSortedIndices num_row).Perm (List.range num_row.length) ∧
    (specSortedIndices num_row).Pairwise (fun i j =>
      num_row.getD j 0 < num_row.getD i 0 ∨
        (num_row.getD i 0 = num_row.getD j 0 ∧ i < j)) :=
  ⟨by rw [score_subject_eq_spec_sum, specInconsistencyCount, pairwise],
    specSortedIndices_perm num_row, specSortedIndices_stable num_row⟩

/-- Witness for C1 at a concrete pair of rows. -/
theorem score_subject_eq_specInconsistencyCount_witness :
    ([2, 1] : List Int).length = ([5, 9] : List Int).length ∧
    score_subject [2, 1] [5, 9] = specInconsistencyCount [2, 1] [5, 9] :=
  ⟨rfl, (score_subject_eq_specInconsistencyCount [2, 1] [5, 9] rfl).1⟩

/-! ## C4 -/

/-- C4 (amended): for a subject whose two rows each have `N ≥ 1` items,
the inconsistency count is a non-negative integer at most `N - 1`. -/
theorem score_subject_range (cat_row num_row : List Int) (N : Nat)
    (_hc : cat_row.length = N) (hn : num_row.length = N) (hN : 1 ≤ N) :
    0 ≤ score_subject cat_row num_row ∧
      score_subject cat_row num_row ≤ (N : ℤ) - 1 := by
  rw [score_subject_eq_sum]
  have hlen : (pairwise ((num_row.enum).mergeSort numLE)).length = N - 1 := by
    rw [length_pairwise]
    simp [hn]
  constructor
  · apply List.sum_nonneg
    intro x hx
    obtain ⟨p, _, rfl⟩ := List.mem_map.mp hx
    exact score_nonneg cat_row p
  · have hle := List.sum_le_card_nsmul
        ((pairwise ((num_row.enum).mergeSort numLE)).map (score cat_row)) 1 ?_
    · rw [List.length_map, hlen] at hle
      calc ((pairwise ((num_row.enum).mergeSort numLE)).map (score cat_row)).sum
          ≤ (N - 1 : ℕ) • (1 : ℤ) := hle
        _ = ((N - 1 : ℕ) : ℤ) := by simp
        _ = (N : ℤ) - 1 := by omega
    · intro x hx
      obtain ⟨p, _, rfl⟩ := List.mem_map.mp hx
      exact score_le_one cat_row p

/-- Witness for C4's amended range bound at a concrete subject. -/
theorem score_subject_range_witness :
    0 ≤ score_subject [1, 2, 3] [10, 20, 30] ∧
      score_subject [1, 2, 3] [10, 20, 30] ≤ ((3 : ℕ) : ℤ) - 1 :=
  score_subject_range [1, 2, 3] [10, 20, 30] 3 rfl rfl (by decide)

/-- C4 counterexample: for the N = 0 subject (two empty rows) the count
is 0, which does not lie in the integer interval `[0, N-1] = [0, -1]`. -/
theorem score_subject_range_fails_for_empty_rows :
    ¬ (0 ≤ score_subject ([] : List Int) ([] : List Int) ∧
       score_subject ([] : List Int) ([] : List Int)
         ≤ ((([] : List Int).length : ℤ)) - 1) := by
  have h0 : score_subject ([] : List Int) ([] : List Int) = 0 := by
    simp [score_subject, pairwise]
  intro h
  rw [h0] at h
  norm_num at h

/-! ## C6 -/

/-- C6: inside `score_subject`, a consecutive pair of the numerically
sorted items whose categorical values are equal (`sign == 0`)
contributes 0. -/
theorem score_zero_of_equal_categorical (cat_row num_row : List Int)
    (p : (Nat × Int) × (Nat × Int))
    (_hp : p ∈ pairwise ((num_row.enum).mergeSort numLE))
    (heq : cat_row.getD p.1.1 0 = cat_row.getD p.2.1 0) :
    score cat_row p = 0 := by
  obtain ⟨⟨a, va⟩, ⟨b, vb⟩⟩ := p
  simp only at heq
  simp only [score, signum, cmp]
  split_ifs <;> first | decide | (exfalso; omega)

/-- Witness for C6: a numerical tie whose items share one categorical
value contributes 0. -/
theorem score_zero_of_equal_categorical_witness :
    (((0, (5 : Int)), (1, (5 : Int))) ∈
        pairwise ((([5, 5] : List Int).enum).mergeSort numLE)) ∧
    score [7, 7] ((0, (5 : Int)), (1, (5 : Int))) = 0 := by
  have hmem : ((0, (5 : Int)), (1, (5 : Int))) ∈
      pairwise ((([5, 5] : List Int).enum).mergeSort numLE) := by
    simp [List.mergeSort, List.merge, List.splitInTwo, List.enum, List.enumFrom,
      numLE, numCmp, cmp, pairwise]
  exact ⟨hmem, score_zero_of_equal_categorical [7, 7] [5, 5] _ hmem (by decide)⟩

/-! ## C7 -/

/-- C7: when the strictly descending numerical order coincides with the
strictly ascending categorical (higher-precedence-first) order, the
inconsistency count is 0. -/
theorem score_subject_zero_of_identical_order (cat_row num_row : List Int)
    (_hlen : cat_row.length = num_row.length)
    (hinj : ∀ i j, i < num_row.length → j < num_row.length → i ≠ j →
      num_row.getD i 0 ≠ num_row.getD j 0)
    (hmono : ∀ i j, i < num_row.length → j < num_row.length →
      num_row.getD j 0 < num_row.getD i 0 →
      cat_row.getD i 0 < cat_row.getD j 0) :
    score_subject cat_row num_row = 0 := by
  rw [score_subject_eq_spec_sum]
  apply List.sum_eq_zero
  intro x hx
  obtain ⟨p, hp, rfl⟩ := List.mem_map.mp hx
  obtain ⟨h1, h2, hne, hord⟩ := mem_pairwise_specSortedIndices hp
  have hlt : num_row.getD p.2 0 < num_row.getD p.1 0 :=
    hord.lt_of_ne (hinj p.2 p.1 h2 h1 (Ne.symm hne))
  have hcat := hmono p.1 p.2 h1 h2 hlt
  simp only [specPairContribution]
  rw [if_neg (by omega)]

/-- Witness for C7 at the spec's example: categorical `[3,2,1]`,
numerical `[10,20,30]`. -/
theorem score_subject_zero_of_identical_order_witness :
    score_subject [3, 2, 1] [10, 20, 30] = 0 :=
  score_subject_zero_of_identical_order [3, 2, 1] [10, 20, 30] rfl
    (by intro i j hi hj
        have hi' : i < 3 := by simpa using hi
        have hj' : j < 3 := by simpa using hj
        clear hi hj
        interval_cases i <;> interval_cases j <;> decide)
    (by intro i j hi hj
        have hi' : i < 3 := by simpa using hi
        have hj' : j < 3 := by simpa using hj
        clear hi hj
        interval_cases i <;> interval_cases j <;> decide)

/-! ## C8 -/

/-- C8: when the strictly descending numerical order is the exact
reverse of the categorical precedence order, the inconsistency count is
the maximum `N - 1`. -/
theorem score_subject_max_of_reversed_order (cat_row num_row : List Int)
    (_hlen : cat_row.length = num_row.length)
    (hN : 2 ≤ num_row.length)
    (hinj : ∀ i j, i < num_row.length → j < num_row.length → i ≠ j →
      num_row.getD i 0 ≠ num_row.getD j 0)
    (hanti : ∀ i j, i < num_row.length → j < num_row.length →
      num_row.getD j 0 < num_row.getD i 0 →
      cat_row.getD j 0 < cat_row.getD i 0) :
    score_subject cat_row num_row = (num_row.length : ℤ) - 1 := by
  rw [score_subject_eq_spec_sum]
  have hall : ∀ x ∈ (pairwise (specSortedIndices num_row)).map
      (specPairContribution cat_row), x = 1 := by
    intro x hx
    obtain ⟨p, hp, rfl⟩ := List.mem_map.mp hx
    obtain ⟨h1, h2, hne, hord⟩ := mem_pairwise_specSortedIndices hp
    have hlt : num_row.getD p.2 0 < num_row.getD p.1 0 :=
      hord.lt_of_ne (hinj p.2 p.1 h2 h1 (Ne.symm hne))
    have hcat := hanti p.1 p.2 h1 h2 hlt
    simp only [specPairContribution]
    rw [if_pos (by omega)]
  rw [sum_eq_length_of_all_one _ hall, List.length_map, length_pairwise]
  simp only [specSortedIndices, List.length_mergeSort, List.length_range]
  omega

/-- Witness for C8 at the spec's example: categorical `[1,2,3]`,
numerical `[10,20,30]`. -/
theorem score_subject_max_of_reversed_order_witness :
    score_subject [1, 2, 3] [10, 20, 30]
      = (([10, 20, 30] : List Int).length : ℤ) - 1 :=
  score_subject_max_of_reversed_order [1, 2, 3] [10, 20, 30] rfl (by decide)
    (by intro i j hi hj
        have hi' : i < 3 := by simpa using hi
        have hj' : j < 3 := by simpa using hj
        clear hi hj
        interval_cases i <;> interval_cases j <;> decide)
    (by intro i j hi hj
        have hi' : i < 3 := by simpa using hi
        have hj' : j < 3 := by simpa using hj
        clear hi hj
        interval_cases i <;> interval_cases j <;> decide)

/-! ## C10 -/

/-- C10: rows with fewer than two entries produce no sliding-window
pairs, so the fold returns its initial value 0. -/
theorem score_subject_short_rows (cat_row num_row : List Int)
    (_hlen : cat_row.length = num_row.length)
    (hshort : num_row.length < 2) :
    score_subject cat_row num_row = 0 := by
  rw [score_subject_eq_sum]
  have hnil : pairwise ((num_row.enum).mergeSort numLE) = [] :=
    List.length_eq_zero.mp (by rw [length_pairwise]; simp; omega)
  rw [hnil]
  simp

/-- Witness for C10 at a one-item subject. -/
theorem score_subject_short_rows_witness :
    score_subject [7] [5] = 0 :=
  score_subject_short_rows [7] [5] rfl (by decide)

/-! ## Decoding equations -/

/-- Decoding the empty file. -/
theorem decodeFile_nil : decodeFile [] = some [] := rfl

/-- Decoding one more reader row. -/
theorem decodeFile_cons (r : RowResult) (t : CsvData) :
    decodeFile (r :: t)
      = (decodeRow? r).bind fun x => (decodeFile t).map fun xs => x :: xs := rfl

/-- Scoring one more zipped pair. -/
theorem scorePairs_cons (p : List String × List String)
    (t : List (List String × List String)) :
    scorePairs (p :: t)
      = (scoreOnePair p).bind fun x => (scorePairs t).map fun xs => x :: xs := rfl

/-! ## C3 -/

/-- Zipping two fully decodable readers raises nothing, truncates to the
shorter one, and defers exactly the per-subject scores. -/
theorem zipReaders_decode :
    ∀ (cat num : CsvData) (n : Nat) (pc pn : List (List Int)),
      decodeFile cat = some pc → decodeFile num = some pn →
      ∃ pairs, zipReaders cat num n = .ok pairs ∧
        scorePairs pairs = some (find_inconsistencies pc pn) := by
  intro cat
  induction cat with
  | nil =>
    intro num n pc pn hc hn
    rw [decodeFile_nil] at hc
    obtain rfl : ([] : List (List Int)) = pc := by simpa using hc
    exact ⟨[], rfl, by simp [scorePairs, find_inconsistencies]⟩
  | cons r cat' ih =>
    intro num n pc pn hc hn
    cases r with
    | err => rw [decodeFile_cons] at hc; simp [decodeRow?] at hc
    | ok c =>
      rw [decodeFile_cons] at hc
      simp only [decodeRow?] at hc
      cases hpc : parseRow c with
      | none => rw [hpc] at hc; simp at hc
      | some c' =>
        rw [hpc] at hc
        cases hdc : decodeFile cat' with
        | none => rw [hdc] at hc; simp at hc
        | some pc' =>
          rw [hdc] at hc
          obtain rfl : c' :: pc' = pc := by simpa using hc
          cases num with
          | nil =>
            rw [decodeFile_nil] at hn
            obtain rfl : ([] : List (List Int)) = pn := by simpa using hn
            exact ⟨[], rfl, by simp [scorePairs, find_inconsistencies]⟩
          | cons s num' =>
            cases s with
            | err => rw [decodeFile_cons] at hn; simp [decodeRow?] at hn
            | ok d =>
              rw [decodeFile_cons] at hn
              simp only [decodeRow?] at hn
              cases hpd : parseRow d with
              | none => rw [hpd] at hn; simp at hn
              | some d' =>
                rw [hpd] at hn
                cases hdn : decodeFile num' with
                | none => rw [hdn] at hn; simp at hn
                | some pn' =>
                  rw [hdn] at hn
                  obtain rfl : d' :: pn' = pn := by simpa using hn
                  obtain ⟨pairs', hz', hs'⟩ := ih num' (n + 1) pc' pn' hdc hdn
                  refine ⟨(c, d) :: pairs', ?_, ?_⟩
                  · simp [zipReaders, hz']
                  · rw [scorePairs_cons, hs']
                    simp [scoreOnePair, hpc, hpd]
                    rfl

/-- C3: when the two inputs decode to M and K subject rows with M ≠ K,
and each of the `min M K` paired subjects has rows of equal length (the
spec's per-subject shape invariant, without which the scorer's
`cat_rankings[...]` indexing raises an uncaught `IndexError` instead),
`find_inconsistencies` raises nothing and silently truncates: it
produces exactly `min M K` counts, pairing row i with row i. -/
theorem find_inconsistencies_truncates (name : String) (cat num : CsvData)
    (pc pn : List (List Int))
    (hc : decodeFile cat = some pc) (hn : decodeFile num = some pn)
    (_hne : pc.length ≠ pn.length)
    (_hshape : ∀ i, i < min pc.length pn.length →
      (pc.getD i []).length = (pn.getD i []).length) :
    runFind name cat num = ProgOutcome.counts (find_inconsistencies pc pn) ∧
    (find_inconsistencies pc pn).length = min pc.length pn.length ∧
    ∀ i, i < min pc.length pn.length →
      (find_inconsistencies pc pn).getD i 0
        = score_subject (pc.getD i []) (pn.getD i []) := by
  obtain ⟨pairs, hz, hs⟩ := zipReaders_decode cat num 0 pc pn hc hn
  have hlen : (find_inconsistencies pc pn).length = min pc.length pn.length := by
    simp [find_inconsistencies]
  refine ⟨by simp [runFind, hz, hs], hlen, ?_⟩
  intro i hi
  have hipc : i < pc.length := lt_of_lt_of_le hi (min_le_left _ _)
  have hipn : i < pn.length := lt_of_lt_of_le hi (min_le_right _ _)
  have hif : i < (find_inconsistencies pc pn).length := by rw [hlen]; exact hi
  rw [List.getD_eq_getElem _ _ hif, List.getD_eq_getElem _ _ hipc,
    List.getD_eq_getElem _ _ hipn]
  simp [find_inconsistencies, List.getElem_zip]

/-- Witness for C3: one categorical row against two numerical rows
produces exactly one count. -/
theorem find_inconsistencies_truncates_witness :
    runFind "ratings.csv" [RowResult.ok ["1", "2"]]
        [RowResult.ok ["2", "1"], RowResult.ok ["5"]]
      = ProgOutcome.counts (find_inconsistencies [[1, 2]] [[2, 1], [5]]) :=
  (find_inconsistencies_truncates "ratings.csv" _ _ [[1, 2]] [[2, 1], [5]]
    (by decide) (by decide) (by decide)
    (by intro i hi
        have h0 : i = 0 := by simpa using hi
        subst h0
        decide)).1

/-! ## C2 -/

/-- A `csv.Error` in the numerical file, hit after `b.length` good pairs,
surfaces with the categorical reader's line count. -/
theorem zipReaders_num_err (b : List (List String)) :
    ∀ (a : List (List String)) (rest : CsvData) (n : Nat),
      b.length < a.length →
      zipReaders (a.map RowResult.ok) (b.map RowResult.ok ++ RowResult.err :: rest) n
        = .error (n + b.length + 1) := by
  induction b with
  | nil =>
    intro a rest n h
    cases a with
    | nil => simp at h
    | cons x a' => simp [zipReaders]
  | cons y b' ih =>
    intro a rest n h
    cases a with
    | nil => simp at h
    | cons x a' =>
      have h' : b'.length < a'.length := by simpa using h
      simp only [List.map_cons, List.cons_append, zipReaders, List.append_eq,
        ih a' rest (n + 1) h']
      simp only [List.length_cons]
      congr 1
      omega

/-- A `csv.Error` in the categorical file, hit after `a.length` good
pairs, surfaces with the categorical reader's line count. -/
theorem zipReaders_cat_err (a : List (List String)) :
    ∀ (b : List (List String)) (rest : CsvData) (n : Nat),
      a.length ≤ b.length →
      zipReaders (a.map RowResult.ok ++ RowResult.err :: rest) (b.map RowResult.ok) n
        = .error (n + a.length + 1) := by
  induction a with
  | nil =>
    intro b rest n _
    simp [zipReaders]
  | cons x a' ih =>
    intro b rest n h
    cases b with
    | nil => simp at h
    | cons y b' =>
      have h' : a'.length ≤ b'.length := by simpa using h
      simp only [List.map_cons, List.cons_append, zipReaders, List.append_eq,
        ih b' rest (n + 1) h']
      simp only [List.length_cons]
      congr 1
      omega

/-- C2 (amended): a `csv.Error` raised while the two readers are zipped
terminates the run with a clean file-and-line message, but the message
always names the *categorical* file — also when the numerical file is
the offender — while a row whose fields are not valid integers is never
caught: the `int` conversions run lazily outside the `try` block, so the
run aborts with an uncaught `ValueError` traceback. -/
theorem runFind_error_behavior (name : String) :
    (∀ (a b : List (List String)) (rest : CsvData), b.length < a.length →
        runFind name (a.map RowResult.ok) (b.map RowResult.ok ++ RowResult.err :: rest)
          = ProgOutcome.exitMsg name (b.length + 1)) ∧
    (∀ (a b : List (List String)) (rest : CsvData), a.length ≤ b.length →
        runFind name (a.map RowResult.ok ++ RowResult.err :: rest) (b.map RowResult.ok)
          = ProgOutcome.exitMsg name (a.length + 1)) ∧
    (∀ (cat num : CsvData) (pairs : List (List String × List String)),
        zipReaders cat num 0 = .ok pairs → scorePairs pairs = none →
        runFind name cat num = ProgOutcome.uncaughtValueError) := by
  refine ⟨?_, ?_, ?_⟩
  · intro a b rest h
    simp [runFind, zipReaders_num_err b a rest 0 h]
  · intro a b rest h
    simp [runFind, zipReaders_cat_err a b rest 0 h]
  · intro cat num pairs hz hs
    simp only [runFind, hz, hs]

/-- Witness for C2's amended behavior: a malformed first row of the
numerical file is reported against the categorical filename. -/
theorem runFind_error_behavior_witness :
    runFind "categorical.csv" [RowResult.ok ["1"]] [RowResult.err]
      = ProgOutcome.exitMsg "categorical.csv" 1 :=
  (runFind_error_behavior "categorical.csv").1 [["1"]] [] [] (by decide)

/-- C2 counterexample: a non-integer field (`"x"`) does not produce the
claimed clean file-and-line message; the run ends in an uncaught
`ValueError`. -/
theorem runFind_valueError_counterexample :
    runFind "categorical.csv" [RowResult.ok ["x"]] [RowResult.ok ["1"]]
        = ProgOutcome.uncaughtValueError ∧
    ∀ (f : String) (l : Nat),
      runFind "categorical.csv" [RowResult.ok ["x"]] [RowResult.ok ["1"]]
        ≠ ProgOutcome.exitMsg f l := by
  refine ⟨by decide, ?_⟩
  intro f l h
  have he : runFind "categorical.csv" [RowResult.ok ["x"]] [RowResult.ok ["1"]]
      = ProgOutcome.uncaughtValueError := by decide
  rw [he] at h
  exact ProgOutcome.noConfusion h

/-! ## C5 -/

/-- The displayed average is Nat-division truncation of sum over count. -/
theorem averageDisplayed_eq_div (counts : List Int) (_hne : counts ≠ [])
    (hpos : ∀ x ∈ counts, 0 ≤ x) :
    averageDisplayed counts = ((counts.sum.toNat / counts.length : ℕ) : ℤ) := by
  have hsum : 0 ≤ counts.sum := List.sum_nonneg hpos
  have hq0 : (0 : ℚ) ≤ (counts.sum : ℚ) / (counts.length : ℚ) := by
    apply div_nonneg
    · exact_mod_cast hsum
    · positivity
  have hfl : (((counts.sum : ℚ) / (counts.length : ℚ)).floor)
      = ⌊((counts.sum : ℚ) / (counts.length : ℚ))⌋ := by
    rw [Rat.floor_def', Rat.floor_def]
  rw [averageDisplayed, truncFormatD, if_pos hq0, hfl,
    Rat.floor_intCast_div_natCast]
  obtain ⟨s, hs⟩ := Int.eq_ofNat_of_zero_le hsum
  rw [hs]
  rw [show ((s : ℤ)).toNat = s from rfl]
  exact (Int.ofNat_ediv s counts.length).symm

/-- C5: on the counts `[0,2,2,1]` the mean prints as 1 (1.25 truncated)
and the most common count is 2; in general the printed mean is the
truncation of (sum of counts) / (number of counts). -/
theorem report_statistics_spec :
    averageDisplayed [0, 2, 2, 1] = 1 ∧ modeOf [0, 2, 2, 1] = some 2 ∧
    ∀ counts : List Int, counts ≠ [] → (∀ x ∈ counts, 0 ≤ x) →
      averageDisplayed counts = ((counts.sum.toNat / counts.length : ℕ) : ℤ) := by
  refine ⟨?_, by decide, averageDisplayed_eq_div⟩
  rw [averageDisplayed_eq_div [0, 2, 2, 1] (by simp) (by decide)]
  decide

/-- Witness for C5's general truncation statement at the example input. -/
theorem report_statistics_spec_witness :
    averageDisplayed [0, 2, 2, 1]
      = ((([0, 2, 2, 1] : List Int).sum.toNat / ([0, 2, 2, 1] : List Int).length : ℕ) : ℤ) :=
  report_statistics_spec.2.2 [0, 2, 2, 1] (by simp) (by decide)

/-! ## C9 -/

/-- C9: with fewer than two positional arguments (`len(sys.argv) <= 2`)
the program prints the usage message and does no work: it never reaches
`report_inconsistencies`, writes no file, and exits with status 0. -/
theorem pymain_usage_on_few_args (argv : List String) (h : argv.length < 3) :
    pymain argv = MainOutcome.usage ∧
    ∀ r1 r2 o, pymain argv ≠ MainOutcome.report r1 r2 o := by
  have hu : pymain argv = MainOutcome.usage := by
    rw [pymain, if_neg (by omega)]
  refine ⟨hu, ?_⟩
  intro r1 r2 o hcontra
  rw [hu] at hcontra
  exact MainOutcome.noConfusion hcontra

/-- Witness for C9 with a single positional argument. -/
theorem pymain_usage_on_few_args_witness :
    pymain ["find_inconsistencies.py", "cat.csv"] = MainOutcome.usage :=
  (pymain_usage_on_few_args ["find_inconsistencies.py", "cat.csv"] (by decide)).1

/-- Sanity checks for the embedded `int()` parser: surrounding
whitespace and signs are accepted, non-numeric text is rejected. -/
theorem pyInt_examples :
    pyInt "  42 " = some 42 ∧ pyInt "-7" = some (-7) ∧ pyInt "x" = none := by
  refine ⟨by decide, by decide, by decide⟩

/-- Sanity check: a `csv.Error` in the second row of the numerical file
is reported against the categorical filename with line count 2. -/
theorem runFind_example_second_row :
    runFind "c.csv" [RowResult.ok ["1"], RowResult.ok ["2"]]
      [RowResult.ok ["3"], RowResult.err] = ProgOutcome.exitMsg "c.csv" 2 := by
  decide

end ITSSurvey
